import Mathlib

/-!
Shallow embedding of `currency-config.js` (the conversion-and-synchronization
engine of the currency overlay): the currency registry, the amount formatter
(`formatCurrency`), the conversion engine (`convertAmount`), the price-text
extractor (`extractPriceFromText` and the `parseFloat`-based attribute path),
the element synchronizer (`updatePriceElement`) and the mutation-observer
dispatch (`setupMutationObserver`).

Numeric amounts are modelled as exact rationals (`ℚ`); JavaScript `NaN` is
modelled as `Option.none`; a thrown `TypeError` is modelled as the whole
operation returning `none`.  Strings are processed as `List Char` internally,
mirroring the JavaScript string operations character by character, including
the `String.prototype.replace` substitution template semantics (`$1`, `$$`,
`$&`, ...) that the source relies on implicitly.
-/

namespace CurrencyConfig

/-! ## Exact rational arithmetic

The JavaScript arithmetic on amounts (multiplication by a rate, the scaling
inside `toFixed`) is modelled on `ℚ`.  Mathlib's `Rat.add`/`Rat.mul` are
`@[irreducible]`, so we use definitionally reducing implementations via
`mkRat` (normalised construction); `qmul_eq` and `qadd_eq` prove they agree
with the ordinary operations. -/

/-- Rational multiplication, reducibly: `a/b * c/d = (a*c)/(b*d)`. -/
def qmul (a b : ℚ) : ℚ := mkRat (a.num * b.num) (a.den * b.den)

/-- Rational addition, reducibly: `a/b + c/d = (a*d + c*b)/(b*d)`. -/
def qadd (a b : ℚ) : ℚ := mkRat (a.num * b.den + b.num * a.den) (a.den * b.den)

/-- Absolute value of a rational, reducibly. -/
def qabs (a : ℚ) : ℚ := if a.num < 0 then mkRat (-a.num) a.den else a

/-! ## Characters and digit strings -/

/-- The character class of the JavaScript word characters `[A-Za-z0-9_]`
(used by the `\B` assertion in the thousands-grouping regex). -/
def isWordChar (c : Char) : Bool :=
  c.isAlphanum || c == '_'

/-- The decimal digit character for `d < 10`, i.e. code point `48 + d`. -/
def digitChar (d : Nat) : Char :=
  Char.ofNat (48 + d)

/-- Maximal run of decimal digits at the front of a character list
(the greedy `\d+`). -/
def takeDigits (l : List Char) : List Char :=
  l.takeWhile Char.isDigit

/-- Decimal digit characters of a natural number, most significant first
(fuel-based so that it reduces definitionally; the fuel `n + 1` always
suffices since a number has at most `n + 1` digits). -/
def natDigitsGo : Nat → Nat → List Char
  | 0, _ => []
  | fuel + 1, n =>
    if n < 10 then [digitChar n]
    else natDigitsGo fuel (n / 10) ++ [digitChar (n % 10)]

/-- Decimal digit characters of a natural number, most significant first. -/
def natDigits (n : Nat) : List Char :=
  natDigitsGo (n + 1) n

/-- `Number.prototype.toFixed(2)` on an exact rational: the sign is taken
first (ECMA-262: if `x < 0` emit `"-"` and continue with `-x`), then the
value is rounded to an integer count of hundredths, ties away from zero
(ECMA-262 picks the larger candidate `n`), and printed with exactly two
fraction digits. -/
def toFixed2 (x : ℚ) : List Char :=
  let n : Nat := (Rat.floor (qadd (qmul (qabs x) 100) (mkRat 1 2))).toNat
  (if x < 0 then ['-'] else []) ++
    natDigits (n / 100) ++ '.' :: [digitChar (n / 10 % 10), digitChar (n % 10)]

/-! ## The thousands-grouping regex `\B(?=(\d{3})+(?!\d))`

`formatCurrency` inserts the grouping separator with
`formattedAmount.replace(/\B(?=(\d{3})+(?!\d))/g, ",")`.  The lookahead
`(\d{3})+(?!\d)` succeeds at a position iff some positive multiple of three
digits starting there is immediately followed by a non-digit (or the end);
`\B` holds between two characters iff both or neither are word characters
(at the start of the string: iff the first character is not a word
character). -/

/-- The lookahead `(\d{3})+(?!\d)` with backtracking: consume three digits,
then either the next character is not a digit (success) or recurse. -/
def lookaheadGroups : List Char → Bool
  | a :: b :: c :: rest =>
    a.isDigit && b.isDigit && c.isDigit &&
      (match rest with
       | [] => true
       | d :: _ => !d.isDigit || lookaheadGroups rest)
  | _ => false

/-- One pass of the global replace of the zero-width pattern
`\B(?=(\d{3})+(?!\d))` by `","`: walk the string keeping the previous
character, inserting a comma at every position where `\B` and the lookahead
hold. -/
def insertCommasGo (prev : Option Char) : List Char → List Char
  | [] => []
  | c :: rest =>
    let atB : Bool :=
      match prev with
      | none => !isWordChar c
      | some p => isWordChar p == isWordChar c
    if atB && lookaheadGroups (c :: rest) then
      ',' :: c :: insertCommasGo (some c) rest
    else
      c :: insertCommasGo (some c) rest

/-- `s.replace(/\B(?=(\d{3})+(?!\d))/g, ",")` from `formatCurrency`. -/
def insertCommas (l : List Char) : List Char :=
  insertCommasGo none l

/-! ## The currency registry -/

/-- Symbol position relative to the amount (`position: "before" | "after"`). -/
inductive Pos where
  | before
  | after
deriving DecidableEq, Repr

/-- One registry entry: symbol, display name, rate relative to USD, symbol
position. -/
structure Currency where
  symbol : String
  name : String
  rate : ℚ
  position : Pos
deriving DecidableEq, Repr

/-- The `currencies` table of `CurrencyConfig`. -/
def currencies : List (String × Currency) :=
  [ ("USD", ⟨"$", "US Dollar", 1, Pos.before⟩),
    ("EUR", ⟨"€", "Euro", mkRat 85 100, Pos.before⟩),
    ("GBP", ⟨"£", "British Pound", mkRat 73 100, Pos.before⟩),
    ("ZAR", ⟨"R", "South African Rand", mkRat 145 10, Pos.before⟩),
    ("JPY", ⟨"¥", "Japanese Yen", 110, Pos.before⟩) ]

/-- `this.currencies[code]`: `some` entry or `none` (JS `undefined`). -/
def lookupCurrency (code : String) : Option Currency :=
  (currencies.find? (fun p => p.1 == code)).map (·.2)

/-- `defaultCurrency: "USD"`. -/
def defaultCurrency : String := "USD"

/-- `storageKey: "userCurrencyPreference"`. -/
def storageKey : String := "userCurrencyPreference"

/-- `formatCurrency(amount, currencyCode)`: resolve the currency (falling
back to the default when the code is unknown), apply `toFixed(2)` and the
grouping regex, and place the symbol before or after the number. -/
def formatCurrency (amount : ℚ) (currencyCode : String) : String :=
  let currency :=
    match lookupCurrency currencyCode with
    | some c => c
    | none =>
      match lookupCurrency defaultCurrency with
      | some c => c
      | none => ⟨"", "", 0, Pos.before⟩
  let formattedAmount := insertCommas (toFixed2 amount)
  match currency.position with
  | Pos.before => currency.symbol ++ ⟨formattedAmount⟩
  | Pos.after => ⟨formattedAmount⟩ ++ currency.symbol

/-! ## The preference store and browser state -/

/-- A key-value web storage area (`localStorage` / `sessionStorage`). -/
structure Storage where
  pairs : List (String × String)
deriving DecidableEq, Repr

/-- `storage.getItem(k)`: `some` value or `none` (JS `null`). -/
def Storage.getItem (s : Storage) (k : String) : Option String :=
  (s.pairs.find? (fun p => p.1 == k)).map (·.2)

/-- `storage.setItem(k, v)`; the newest binding shadows older ones. -/
def Storage.setItem (s : Storage) (k v : String) : Storage :=
  ⟨(k, v) :: s.pairs⟩

/-- The external browser state the component reads and writes: the two
storage scopes, the cookie string, and the list of dispatched events
(event name paired with `detail.currency`). -/
structure BrowserState where
  localStorage : Storage
  sessionStorage : Storage
  cookie : String
  events : List (String × String)
deriving DecidableEq, Repr

/-- JavaScript truthiness of a `getItem` result: `null` and `""` are falsy. -/
def truthy : Option String → Bool
  | none => false
  | some s => !(s == "")

/-- `o || d` for a possibly-null string `o` and a fallback `d`. -/
def orDefault (o : Option String) (d : String) : String :=
  match o with
  | some s => if s == "" then d else s
  | none => d

/-- `haystack.includes(needle)` on character lists. -/
def includesSub (needle : List Char) : List Char → Bool
  | [] => needle.isEmpty
  | l@(_ :: rest) => needle.isPrefixOf l || includesSub needle rest

/-- `checkIfUserIsLoggedIn()`: an auth token in localStorage, a login flag
in sessionStorage, or a `user_session` cookie. -/
def checkIfUserIsLoggedIn (b : BrowserState) : Bool :=
  truthy (b.localStorage.getItem "authToken") ||
    truthy (b.sessionStorage.getItem "userLoggedIn") ||
    includesSub "user_session".data b.cookie.data

/-- `getUserCurrency()`: read localStorage first; only when that is falsy
and the user is logged in, read sessionStorage; fall back to the default
code. -/
def getUserCurrency (b : BrowserState) : String :=
  let isLoggedIn := checkIfUserIsLoggedIn b
  let storedCurrency := b.localStorage.getItem storageKey
  if !truthy storedCurrency && isLoggedIn then
    orDefault (b.sessionStorage.getItem storageKey) defaultCurrency
  else
    orDefault storedCurrency defaultCurrency

/-- `setUserCurrency(currencyCode)`: reject unregistered codes before any
write; otherwise write localStorage, additionally write sessionStorage when
logged in (`saveToServer` has an empty body in the source), and dispatch
the `currencyChanged` event. -/
def setUserCurrency (b : BrowserState) (currencyCode : String) : Bool × BrowserState :=
  if (lookupCurrency currencyCode).isNone then
    (false, b)
  else
    let b1 := { b with localStorage := b.localStorage.setItem storageKey currencyCode }
    let b2 :=
      if checkIfUserIsLoggedIn b1 then
        { b1 with sessionStorage := b1.sessionStorage.setItem storageKey currencyCode }
      else b1
    (true, { b2 with events := b2.events ++ [("currencyChanged", currencyCode)] })

/-! ## The conversion engine -/

/-- The record returned by `convertAmount`. -/
structure Converted where
  amount : ℚ
  formatted : String
  symbol : String
  code : String
deriving DecidableEq, Repr

/-- `convertAmount(amountInBase)`: resolve the user preference internally,
look the currency up, multiply by its rate, format.  `none` models the
`TypeError` thrown when the resolved code has no registry entry (the source
reads `currencyData.rate` without a fallback). -/
def convertAmount (b : BrowserState) (amountInBase : ℚ) : Option Converted :=
  let userCurrency := getUserCurrency b
  match lookupCurrency userCurrency with
  | none => none
  | some currencyData =>
    let convertedAmount := qmul amountInBase currencyData.rate
    some ⟨convertedAmount, formatCurrency convertedAmount userCurrency,
      currencyData.symbol, userCurrency⟩

/-! ## parseFloat -/

/-- Value of a digit run as a natural number. -/
def digitsToNat (l : List Char) : Nat :=
  l.foldl (fun acc c => 10 * acc + (c.toNat - 48)) 0

/-- Exponent value after the `e`/`E`: optional sign, then digits (an
exponent with no digits does not extend the parsed literal, so contributes
scale 0 here; the caller only reaches this after a valid mantissa). -/
def parseExpTail (l : List Char) : Int :=
  match l with
  | '+' :: rest => (if (takeDigits rest).isEmpty then 0 else (digitsToNat (takeDigits rest) : Int))
  | '-' :: rest => (if (takeDigits rest).isEmpty then 0 else -(digitsToNat (takeDigits rest) : Int))
  | _ => (if (takeDigits l).isEmpty then 0 else (digitsToNat (takeDigits l) : Int))

/-- Exponent part `[eE][+-]?digits` immediately after the mantissa, if any. -/
def parseExponent : List Char → Int
  | 'e' :: rest => parseExpTail rest
  | 'E' :: rest => parseExpTail rest
  | _ => 0

/-- Scale a rational by `10 ^ e`. -/
def scalePow10 (v : ℚ) (e : Int) : ℚ :=
  if 0 ≤ e then mkRat (v.num * (10 : Int) ^ e.toNat) v.den
  else mkRat v.num (v.den * 10 ^ (-e).toNat)

/-- The unsigned decimal literal at the front of the input:
`digits [. digits] [exp]` or `. digits [exp]`; `none` when no valid prefix
exists. -/
def parseUnsigned (l : List Char) : Option ℚ :=
  let ds := takeDigits l
  let rest := l.drop ds.length
  if ds.isEmpty then
    match rest with
    | '.' :: r2 =>
      let fs := takeDigits r2
      if fs.isEmpty then none
      else some (scalePow10 (mkRat (digitsToNat fs) (10 ^ fs.length))
        (parseExponent (r2.drop fs.length)))
    | _ => none
  else
    match rest with
    | '.' :: r2 =>
      let fs := takeDigits r2
      some (scalePow10 (qadd (mkRat (digitsToNat ds) 1) (mkRat (digitsToNat fs) (10 ^ fs.length)))
        (parseExponent (r2.drop fs.length)))
    | _ => some (scalePow10 (mkRat (digitsToNat ds) 1) (parseExponent rest))

/-- JavaScript `parseFloat` on the finite-decimal fragment: skip leading
whitespace, optional sign, longest valid decimal-literal prefix; `none`
models `NaN`.  (`Infinity` and non-finite values fall outside the rational
model.) -/
def parseFloatQ (s : String) : Option ℚ :=
  match s.data.dropWhile Char.isWhitespace with
  | '+' :: r => parseUnsigned r
  | '-' :: r => (parseUnsigned r).map (fun v => mkRat (-v.num) v.den)
  | l => parseUnsigned l

/-! ## String.prototype.replace with a string replacement template

ECMA-262 GetSubstitution: in the replacement string, a dollar sign followed
by another dollar sign emits one dollar sign; followed by an ampersand it
emits the matched text; followed by a backquote the text before the match;
followed by a single quote the text after the match; followed by one or two
digits naming an existing capture it emits that capture (empty when the
capture did not participate); any other dollar sequence is copied
literally. -/

/-- The backquote character (code 96). -/
def backquoteChar : Char := Char.ofNat 96

/-- The single-quote character (code 39). -/
def singleQuoteChar : Char := Char.ofNat 39

/-- Capture `n` (1-based) as a character list, empty when absent. -/
def capGet (caps : List (Option (List Char))) (n : Nat) : List Char :=
  match caps.get? (n - 1) with
  | some (some g) => g
  | _ => []

/-- ECMA-262 GetSubstitution over the replacement template (fuel-based so
that it reduces definitionally; every step consumes at least one template
character, so the fuel `length + 1` always suffices). -/
def getSubstitutionGo (matched pre suf : List Char) (caps : List (Option (List Char))) :
    Nat → List Char → List Char
  | 0, l => l
  | _ + 1, [] => []
  | fuel + 1, '$' :: rest =>
    match rest with
    | [] => ['$']
    | c :: r =>
      if c == '$' then '$' :: getSubstitutionGo matched pre suf caps fuel r
      else if c == '&' then matched ++ getSubstitutionGo matched pre suf caps fuel r
      else if c == backquoteChar then pre ++ getSubstitutionGo matched pre suf caps fuel r
      else if c == singleQuoteChar then suf ++ getSubstitutionGo matched pre suf caps fuel r
      else if c.isDigit then
        match r with
        | d :: r2 =>
          if d.isDigit && decide (1 ≤ 10 * (c.toNat - 48) + (d.toNat - 48)) &&
              decide (10 * (c.toNat - 48) + (d.toNat - 48) ≤ caps.length) then
            capGet caps (10 * (c.toNat - 48) + (d.toNat - 48)) ++
              getSubstitutionGo matched pre suf caps fuel r2
          else if decide (1 ≤ c.toNat - 48) && decide (c.toNat - 48 ≤ caps.length) then
            capGet caps (c.toNat - 48) ++ getSubstitutionGo matched pre suf caps fuel (d :: r2)
          else
            '$' :: c :: getSubstitutionGo matched pre suf caps fuel (d :: r2)
        | [] =>
          if decide (1 ≤ c.toNat - 48) && decide (c.toNat - 48 ≤ caps.length) then
            capGet caps (c.toNat - 48) ++ getSubstitutionGo matched pre suf caps fuel []
          else ['$', c]
      else
        '$' :: getSubstitutionGo matched pre suf caps fuel (c :: r)
  | fuel + 1, c :: rest => c :: getSubstitutionGo matched pre suf caps fuel rest

/-- ECMA-262 GetSubstitution over the replacement template. -/
def getSubstitution (matched pre suf : List Char) (caps : List (Option (List Char)))
    (tmpl : List Char) : List Char :=
  getSubstitutionGo matched pre suf caps (tmpl.length + 1) tmpl

/-! ## The two price regexes -/

/-- Match of `\$\d+(\.\d{2})?` at the current position: matched text, the
digit run, and the optional fraction group. -/
def matchDollarAt : List Char → Option (List Char × List Char × Option (List Char))
  | '$' :: r =>
    let ds := takeDigits r
    if ds.isEmpty then none
    else
      match r.drop ds.length with
      | '.' :: a :: b :: _ =>
        if a.isDigit && b.isDigit then
          some ('$' :: ds ++ ['.', a, b], ds, some ['.', a, b])
        else some ('$' :: ds, ds, none)
      | _ => some ('$' :: ds, ds, none)
  | _ => none

/-- Case-insensitive match of `(dollars|USD)` at the current position,
returning the matched characters in their original case. -/
def matchKeywordAt (l : List Char) : Option (List Char) :=
  let d := l.take 7
  if d.length == 7 && (d.map Char.toLower == "dollars".data) then some d
  else
    let u := l.take 3
    if u.length == 3 && (u.map Char.toLower == "usd".data) then some u
    else none

/-- Continuation of the word pattern after the numeral: `\s*(dollars|USD)`
(the whitespace run is forced maximal since the keywords start with a
letter). -/
def matchWordTail (ds : List Char) (frac : Option (List Char)) (after : List Char) :
    Option (List Char × List Char × Option (List Char) × List Char) :=
  let ws := after.takeWhile Char.isWhitespace
  match matchKeywordAt (after.drop ws.length) with
  | some kw =>
    let g1 := ds ++ frac.getD []
    some (g1 ++ ws ++ kw, g1, frac, kw)
  | none => none

/-- Match of `(\d+(\.\d{2})?)\s*(dollars|USD)` (case-insensitive) at the
current position: matched text and captures 1–3.  Backtracking note: a
shortened digit run leaves a digit right where the whitespace-or-keyword
must start and a fraction can only follow the full run, so only the maximal
run, with the fraction preferred, can succeed. -/
def matchWordAt : List Char → Option (List Char × List Char × Option (List Char) × List Char)
  | l@(c :: _) =>
    if c.isDigit then
      let ds := takeDigits l
      let rest := l.drop ds.length
      let withFrac :=
        match rest with
        | '.' :: a :: b :: r2 =>
          if a.isDigit && b.isDigit then matchWordTail ds (some ['.', a, b]) r2 else none
        | _ => none
      match withFrac with
      | some m => some m
      | none => matchWordTail ds none rest
    else none
  | [] => none

/-- One global-replace pass: scan left to right; at each position try the
matcher; on a match emit the substitution of the template and continue
after the match.  Fuel-based so that it reduces definitionally; the fuel
`length + 1` always suffices since both price patterns match at least one
character. -/
def globalReplaceGo (matcher : List Char → Option (List Char × List (Option (List Char))))
    (tmpl : List Char) : Nat → List Char → List Char → List Char
  | 0, _, s => s
  | _ + 1, _, [] => []
  | fuel + 1, pre, c :: rest =>
    match matcher (c :: rest) with
    | some (matched, caps) =>
      if matched.isEmpty then
        c :: globalReplaceGo matcher tmpl fuel (pre ++ [c]) rest
      else
        let suf := (c :: rest).drop matched.length
        getSubstitution matched pre suf caps tmpl ++
          globalReplaceGo matcher tmpl fuel (pre ++ matched) suf
    | none => c :: globalReplaceGo matcher tmpl fuel (pre ++ [c]) rest

/-- `s.replace(regex, tmpl)` with a global regex given by `matcher`. -/
def globalReplace (matcher : List Char → Option (List Char × List (Option (List Char))))
    (s tmpl : List Char) : List Char :=
  globalReplaceGo matcher tmpl (s.length + 1) [] s

/-- `.replace(/\$\d+(\.\d{2})?/g, tmpl)` — one capture group (the
fraction). -/
def replaceDollarPrices (s tmpl : List Char) : List Char :=
  globalReplace (fun l => (matchDollarAt l).map (fun m => (m.1, [m.2.2]))) s tmpl

/-- `.replace(/(\d+(\.\d{2})?)\s*(dollars|USD)/gi, tmpl)` — three capture
groups. -/
def replaceWordPrices (s tmpl : List Char) : List Char :=
  globalReplace
    (fun l => (matchWordAt l).map (fun m => (m.1, [some m.2.1, m.2.2.1, some m.2.2.2])))
    s tmpl

/-! ## The price-text extractor -/

/-- Scan every position left to right with a matcher returning the captured
numeral; first success wins (regex leftmost-match semantics). -/
def firstScan (f : List Char → Option (List Char)) : List Char → Option (List Char)
  | [] => f []
  | l@(_ :: rest) =>
    match f l with
    | some g => some g
    | none => firstScan f rest

/-- Group 1 of `\$(\d+(\.\d{2})?)` at the current position. -/
def dollarNumAt (l : List Char) : Option (List Char) :=
  (matchDollarAt l).map (fun m => m.2.1 ++ m.2.2.getD [])

/-- Group 1 of `(\d+(\.\d{2})?)\s*(dollars|USD)` at the current position. -/
def wordNumAt (l : List Char) : Option (List Char) :=
  (matchWordAt l).map (fun m => m.2.1)

/-- `extractPriceFromText(text)`: first the symbol regex over the whole
text, then the word regex; `none` models the `null` return. -/
def extractPriceFromText (text : String) : Option String :=
  match firstScan dollarNumAt text.data with
  | some g => some ⟨g⟩
  | none =>
    match firstScan wordNumAt text.data with
    | some g => some ⟨g⟩
    | none => none

/-! ## The element synchronizer -/

/-- A document element as `updatePriceElement` sees it: its attributes and
its `innerHTML`. -/
structure Element where
  attrs : List (String × String)
  innerHTML : String
deriving DecidableEq, Repr

/-- `element.getAttribute(k)`: `some` value or `none` (JS `null`). -/
def Element.getAttribute (e : Element) (k : String) : Option String :=
  (e.attrs.find? (fun p => p.1 == k)).map (·.2)

/-- `element.setAttribute(k, v)`; the newest binding shadows older ones. -/
def Element.setAttribute (e : Element) (k v : String) : Element :=
  { e with attrs := (k, v) :: e.attrs }

/-- `updatePriceElement(element)`: return unchanged when `parseFloat` of
the `data-price` attribute is `NaN` (in particular when the attribute is
absent, since `parseFloat(null)` is `NaN`); otherwise convert the base
price, rewrite the content obtained from `data-original-html` — or, as
nothing in the source ever sets that attribute, from the current
`innerHTML` — through the two global replaces, and tag the element with the
applied code.  `none` models a thrown `TypeError`. -/
def updatePriceElement (b : BrowserState) (e : Element) : Option Element :=
  match (e.getAttribute "data-price").bind parseFloatQ with
  | none => some e
  | some basePrice =>
    match convertAmount b basePrice with
    | none => none
    | some converted =>
      match lookupCurrency converted.code with
      | none => none
      | some currencyData =>
        let originalHTML := (e.getAttribute "data-original-html").getD e.innerHTML
        let updatedHTML :=
          replaceWordPrices
            (replaceDollarPrices originalHTML.data converted.formatted.data)
            (converted.formatted ++ " " ++ currencyData.name).data
        some (Element.setAttribute { e with innerHTML := ⟨updatedHTML⟩ }
          "data-currency" converted.code)

/-! ## The mutation observer -/

/-- A document node: an element with attributes and children, or a text
node. -/
inductive DomNode where
  | element (tag : String) (attrs : List (String × String)) (children : List DomNode)
  | text (s : String)

/-- `node.nodeType === 1`. -/
def isElementNode : DomNode → Bool
  | .element .. => true
  | .text _ => false

/-- `node.hasAttribute('data-price')` (false for text nodes). -/
def hasDataPrice : DomNode → Bool
  | .element _ attrs _ => attrs.any (fun p => p.1 == "data-price")
  | .text _ => false

/-- `node.querySelectorAll('[data-price]')`: the descendant elements (the
node itself excluded) carrying the attribute, in document order. -/
def descendantsWithPriceList : List DomNode → List DomNode
  | [] => []
  | DomNode.text _ :: ns => descendantsWithPriceList ns
  | DomNode.element t attrs cs :: ns =>
    (if attrs.any (fun p => p.1 == "data-price") then [DomNode.element t attrs cs] else []) ++
      descendantsWithPriceList cs ++ descendantsWithPriceList ns

/-- `node.querySelectorAll('[data-price]')` for a single node. -/
def descendantsWithPrice : DomNode → List DomNode
  | .text _ => []
  | .element _ _ cs => descendantsWithPriceList cs

/-- `node.textContent`: concatenation of all descendant text. -/
def textContentList : List DomNode → List Char
  | [] => []
  | DomNode.text s :: ns => s.data ++ textContentList ns
  | DomNode.element _ _ cs :: ns => textContentList cs ++ textContentList ns

/-- `node.textContent` for a single node. -/
def textContent : DomNode → List Char
  | .text s => s.data
  | .element _ _ cs => textContentList cs

/-- Processing of one added node in the observer callback
(`setupMutationObserver`): element nodes carrying `data-price` are
synchronized themselves; element nodes without it have exactly their
`[data-price]` descendants synchronized; other nodes are ignored. -/
def observerTargetsOf (n : DomNode) : List DomNode :=
  match n with
  | .text _ => []
  | .element .. => if hasDataPrice n then [n] else descendantsWithPrice n

/-- All nodes on which the observer callback invokes `updatePriceElement`
for one batch of added nodes. -/
def observerSyncTargets (added : List DomNode) : List DomNode :=
  added.flatMap observerTargetsOf

/-! ## Spec-side definitions

These definitions follow the specification's words (not the source) and
exist only to be compared against the embedded source functions. -/

/-- Modelled from the spec: the grouping described for the digits left of
the decimal point — a separator before every digit from which a positive
multiple of three digits remains, never before the first digit. -/
def specGroupAux : List Char → List Char
  | [] => []
  | c :: rest =>
    if (c :: rest).length % 3 = 0 then ',' :: c :: specGroupAux rest
    else c :: specGroupAux rest

/-- Modelled from the spec: grouping of a digit run (no separator before
the first digit). -/
def specGroup : List Char → List Char
  | [] => []
  | c :: rest => c :: specGroupAux rest

/-- Modelled from the spec: round to two decimals, group every three
digits left of the decimal point, never crossing the point and never
touching a leading minus sign. -/
def groupedFixedSpec (x : ℚ) : List Char :=
  let n : Nat := (Rat.floor (qadd (qmul (qabs x) 100) (mkRat 1 2))).toNat
  (if x < 0 then ['-'] else []) ++
    specGroup (natDigits (n / 100)) ++ '.' :: [digitChar (n / 10 % 10), digitChar (n % 10)]

/-- Modelled from the spec: the layered preference resolution asserted by
the claim — the session-scoped value wins, else the persisted value, else
the registry default. -/
def specLayeredResolve (b : BrowserState) : String :=
  if truthy (b.sessionStorage.getItem storageKey) then
    orDefault (b.sessionStorage.getItem storageKey) defaultCurrency
  else
    orDefault (b.localStorage.getItem storageKey) defaultCurrency

/-- Modelled from the spec: the recognition contract — a node is
price-bearing iff it is an element carrying the base-amount attribute or
its text content matches the extractor heuristics. -/
def qualifiesAsPriceBearing (n : DomNode) : Bool :=
  isElementNode n &&
    (hasDataPrice n || (extractPriceFromText ⟨textContent n⟩).isSome)

/-- Modelled from the spec: the first left-to-right match of either price
pattern (symbol-prefixed numeral, or numeral followed by a currency
word). -/
def specFirstPriceMatch (text : String) : Option String :=
  (firstScan
      (fun l =>
        match dollarNumAt l with
        | some g => some g
        | none => wordNumAt l)
      text.data).map (fun g => ⟨g⟩)

/-! ## Concrete scenario states and elements -/

/-- A browser state with empty storage, no cookie, no events. -/
def emptyBrowser : BrowserState := ⟨⟨[]⟩, ⟨[]⟩, "", []⟩

/-- A browser state whose only storage entry is the persisted preference. -/
def prefState (code : String) : BrowserState :=
  ⟨⟨[(storageKey, code)]⟩, ⟨[]⟩, "", []⟩

/-- Logged-in state with persisted preference EUR and session preference
GBP. -/
def c6State : BrowserState :=
  ⟨⟨[(storageKey, "EUR"), ("authToken", "t")]⟩, ⟨[(storageKey, "GBP")]⟩, "", []⟩

/-- An added node recognized only by the text heuristics (class `price`,
no `data-price` attribute). -/
def c7Node : DomNode :=
  DomNode.element "span" [("class", "price")] [DomNode.text "Price: $42.00 today"]

/-- An added element carrying the `data-price` attribute. -/
def c7PricedNode : DomNode :=
  DomNode.element "div" [("data-price", "5")] []

/-! # Helper lemmas -/

/-- The reducible multiplication agrees with Mathlib's. -/
theorem qmul_eq (a b : ℚ) : qmul a b = a * b := by
  rw [qmul, Rat.mkRat_eq_div]
  conv_rhs => rw [← Rat.num_div_den a, ← Rat.num_div_den b]
  rw [div_mul_div_comm]
  push_cast
  ring

/-- The reducible addition agrees with Mathlib's. -/
theorem qadd_eq (a b : ℚ) : qadd a b = a + b := by
  rw [qadd, Rat.mkRat_eq_div]
  conv_rhs => rw [← Rat.num_div_den a, ← Rat.num_div_den b]
  rw [div_add_div _ _ (Nat.cast_ne_zero.mpr (Rat.den_ne_zero a))
    (Nat.cast_ne_zero.mpr (Rat.den_ne_zero b))]
  push_cast
  ring_nf

/-- The reducible absolute value agrees with Mathlib's. -/
theorem qabs_eq (a : ℚ) : qabs a = |a| := by
  rw [qabs]
  by_cases h : a.num < 0
  · have ha : a < 0 := Rat.num_neg.mp h
    rw [if_pos h, abs_of_neg ha, Rat.mkRat_eq_div]
    push_cast
    rw [neg_div, Rat.num_div_den]
  · have ha : 0 ≤ a := Rat.num_nonneg.mp (le_of_not_lt h)
    rw [if_neg h, abs_of_nonneg ha]

/-- `Rat.floor` is the floor of the `FloorRing` instance. -/
theorem rat_floor_eq (q : ℚ) : Rat.floor q = ⌊q⌋ := rfl

/-- A falsy stored value (`null` or the empty string) makes `o || d`
return the default. -/
theorem orDefault_falsy (o : Option String) (d : String) (h : truthy o = false) :
    orDefault o d = d := by
  cases o with
  | none => rfl
  | some s =>
    simp only [truthy, Bool.not_eq_false'] at h
    simp [orDefault, h]

/-- Every node collected by `querySelectorAll('[data-price]')` carries the
attribute. -/
theorem mem_descendantsWithPriceList (l : List DomNode) (n : DomNode)
    (h : n ∈ descendantsWithPriceList l) : hasDataPrice n = true := by
  induction l using descendantsWithPriceList.induct with
  | case1 => simp [descendantsWithPriceList] at h
  | case2 s ns ih =>
    simp only [descendantsWithPriceList] at h
    exact ih h
  | case3 t attrs cs ns ih1 ih2 =>
    simp only [descendantsWithPriceList, List.mem_append] at h
    rcases h with (h | h) | h
    · by_cases hc : attrs.any (fun p => p.1 == "data-price")
      · rw [if_pos hc] at h
        simp only [List.mem_singleton] at h
        subst h
        simpa [hasDataPrice] using hc
      · rw [if_neg hc] at h
        simp at h
    · exact ih1 h
    · exact ih2 h

/-- A scan with the pointwise alternation of two matchers fails exactly
when both individual scans fail. -/
theorem firstScan_combine_none (f g : List Char → Option (List Char)) :
    ∀ l : List Char,
      firstScan
          (fun l2 =>
            match f l2 with
            | some r => some r
            | none => g l2) l = none ↔
        (firstScan f l = none ∧ firstScan g l = none) := by
  intro l
  induction l with
  | nil =>
    simp only [firstScan]
    cases f [] <;> simp
  | cons c rest ih =>
    simp only [firstScan]
    cases hf : f (c :: rest) <;> cases hg : g (c :: rest) <;> simp [hf, hg, ih]

/-! ## Formatting helper lemmas (for C5) -/

theorem digitChar_isDigit (d : Nat) (h : d < 10) : (digitChar d).isDigit = true := by
  interval_cases d <;> decide

theorem isWordChar_of_isDigit (c : Char) (h : c.isDigit = true) : isWordChar c = true := by
  simp [isWordChar, Char.isAlphanum, h]

theorem natDigitsGo_digits :
    ∀ (fuel n : Nat) (c : Char), c ∈ natDigitsGo fuel n → c.isDigit = true := by
  intro fuel
  induction fuel with
  | zero => intro n c h; simp [natDigitsGo] at h
  | succ f ih =>
    intro n c h
    by_cases hn : n < 10
    · simp only [natDigitsGo, hn, if_true, List.mem_singleton] at h
      subst h
      exact digitChar_isDigit n hn
    · simp only [natDigitsGo, hn, if_false, List.mem_append, List.mem_singleton] at h
      rcases h with h | h
      · exact ih _ _ h
      · subst h
        exact digitChar_isDigit _ (Nat.mod_lt _ (by norm_num))

theorem natDigits_digits (n : Nat) (c : Char) (h : c ∈ natDigits n) : c.isDigit = true :=
  natDigitsGo_digits _ _ _ h

theorem natDigits_ne_nil (n : Nat) : natDigits n ≠ [] := by
  unfold natDigits natDigitsGo
  split <;> simp

theorem lookaheadGroups_not_digit (a : Char) (l : List Char) (h : a.isDigit = false) :
    lookaheadGroups (a :: l) = false := by
  rcases l with _ | ⟨b, _ | ⟨c, r⟩⟩ <;> simp [lookaheadGroups, h]

theorem lookaheadGroups_digits :
    ∀ (d u : List Char), (∀ c ∈ d, c.isDigit = true) →
      lookaheadGroups (d ++ '.' :: u) =
        (decide (3 ≤ d.length) && decide (d.length % 3 = 0))
  | [], u, _ => by
    have hdot : ('.' : Char).isDigit = false := by decide
    rcases u with _ | ⟨b, _ | ⟨c, r⟩⟩ <;> simp [lookaheadGroups, hdot]
  | [x], u, h => by
    have hdot : ('.' : Char).isDigit = false := by decide
    rcases u with _ | ⟨b, r⟩ <;> simp [lookaheadGroups, hdot]
  | [x, y], u, h => by
    have hdot : ('.' : Char).isDigit = false := by decide
    simp [lookaheadGroups, hdot]
  | x :: y :: z :: rest, u, h => by
    have hx : x.isDigit = true := h x (by simp)
    have hy : y.isDigit = true := h y (by simp)
    have hz : z.isDigit = true := h z (by simp)
    have hrest : ∀ c ∈ rest, c.isDigit = true := fun c hc => h c (by simp [hc])
    have ih := lookaheadGroups_digits rest u hrest
    cases rest with
    | nil =>
      have hdot : ('.' : Char).isDigit = false := by decide
      simp [lookaheadGroups, hx, hy, hz, hdot]
    | cons r0 rest1 =>
      have hr0 : r0.isDigit = true := hrest r0 (by simp)
      have hstep : lookaheadGroups ((x :: y :: z :: r0 :: rest1) ++ '.' :: u) =
          (x.isDigit && y.isDigit && z.isDigit &&
            (!r0.isDigit || lookaheadGroups ((r0 :: rest1) ++ '.' :: u))) := rfl
      rw [hstep, hx, hy, hz, hr0, ih]
      simp only [Bool.not_true, Bool.false_or, Bool.true_and, List.length_cons]
      by_cases hm : (rest1.length + 1) % 3 = 0
      · have h1 : 3 ≤ rest1.length + 1 := by omega
        have h2 : (rest1.length + 1 + 1 + 1 + 1) % 3 = 0 := by omega
        have h3 : 3 ≤ rest1.length + 1 + 1 + 1 + 1 := by omega
        simp [hm, h1, h2, h3]
      · have h2 : ¬ ((rest1.length + 1 + 1 + 1 + 1) % 3 = 0) := by omega
        simp [hm, h2]

theorem insertCommasGo_dot_tail (p f1 f2 : Char) (h1 : f1.isDigit = true)
    (_h2 : f2.isDigit = true) :
    insertCommasGo (some p) ['.', f1, f2] = ['.', f1, f2] := by
  have hw : isWordChar '.' = false := by decide
  have hw1 : isWordChar f1 = true := isWordChar_of_isDigit f1 h1
  have hla1 : lookaheadGroups ['.', f1, f2] = false := by
    simp [lookaheadGroups]
  have hla2 : lookaheadGroups [f1, f2] = false := by
    simp [lookaheadGroups]
  have hla3 : lookaheadGroups [f2] = false := by
    simp [lookaheadGroups]
  simp [insertCommasGo, hw, hw1, hla1, hla2, hla3]

theorem insertCommasGo_digits :
    ∀ (d : List Char) (p f1 f2 : Char), (∀ c ∈ d, c.isDigit = true) →
      p.isDigit = true → f1.isDigit = true → f2.isDigit = true →
      insertCommasGo (some p) (d ++ ['.', f1, f2]) = specGroupAux d ++ ['.', f1, f2]
  | [], p, f1, f2, _, hp, h1, h2 => by
    simpa [specGroupAux] using insertCommasGo_dot_tail p f1 f2 h1 h2
  | c :: rest, p, f1, f2, hd, hp, h1, h2 => by
    have hc : c.isDigit = true := hd c (by simp)
    have hrest : ∀ a ∈ rest, a.isDigit = true := fun a ha => hd a (by simp [ha])
    have ih := insertCommasGo_digits rest c f1 f2 hrest hc h1 h2
    have hwp : isWordChar p = true := isWordChar_of_isDigit p hp
    have hwc : isWordChar c = true := isWordChar_of_isDigit c hc
    have hla := lookaheadGroups_digits (c :: rest) [f1, f2] hd
    have hstep : insertCommasGo (some p) ((c :: rest) ++ ['.', f1, f2]) =
        (if (isWordChar p == isWordChar c) &&
            lookaheadGroups ((c :: rest) ++ ['.', f1, f2]) then
          ',' :: c :: insertCommasGo (some c) (rest ++ ['.', f1, f2])
        else c :: insertCommasGo (some c) (rest ++ ['.', f1, f2])) := rfl
    rw [hstep, hwp, hwc, hla, ih]
    simp only [beq_self_eq_true, Bool.true_and, List.length_cons]
    by_cases hm : (rest.length + 1) % 3 = 0
    · have h3 : 3 ≤ rest.length + 1 := by omega
      rw [if_pos (by simp [hm, h3])]
      have hsg : specGroupAux (c :: rest) = ',' :: c :: specGroupAux rest := by
        simp [specGroupAux, hm]
      rw [hsg]
      rfl
    · rw [if_neg (by simp [hm])]
      have hsg : specGroupAux (c :: rest) = c :: specGroupAux rest := by
        simp [specGroupAux, hm]
      rw [hsg]
      rfl

theorem insertCommas_toFixed_eq_spec (x : ℚ) :
    insertCommas (toFixed2 x) = groupedFixedSpec x := by
  unfold insertCommas toFixed2 groupedFixedSpec
  generalize (Rat.floor (qadd (qmul (qabs x) 100) (mkRat 1 2))).toNat = n
  show insertCommasGo none ((if x < 0 then ['-'] else []) ++ natDigits (n / 100) ++
      ['.', digitChar (n / 10 % 10), digitChar (n % 10)]) =
    (if x < 0 then ['-'] else []) ++ specGroup (natDigits (n / 100)) ++
      ['.', digitChar (n / 10 % 10), digitChar (n % 10)]
  have h1 : (digitChar (n / 10 % 10)).isDigit = true :=
    digitChar_isDigit _ (Nat.mod_lt _ (by norm_num))
  have h2 : (digitChar (n % 10)).isDigit = true :=
    digitChar_isDigit _ (Nat.mod_lt _ (by norm_num))
  obtain ⟨c0, rest, hsplit⟩ : ∃ c0 rest, natDigits (n / 100) = c0 :: rest := by
    cases hnd : natDigits (n / 100) with
    | nil => exact absurd hnd (natDigits_ne_nil _)
    | cons a l => exact ⟨a, l, rfl⟩
  have hd : ∀ c ∈ c0 :: rest, c.isDigit = true := by
    rw [← hsplit]
    exact fun c hc => natDigits_digits _ c hc
  have hc0 : c0.isDigit = true := hd c0 (by simp)
  have hw0 : isWordChar c0 = true := isWordChar_of_isDigit c0 hc0
  have hrest : ∀ a ∈ rest, a.isDigit = true := fun a ha => hd a (by simp [ha])
  rw [hsplit]
  by_cases hneg : x < 0
  · rw [if_pos hneg]
    simp only [List.cons_append, List.nil_append, List.append_assoc]
    have hla : lookaheadGroups ('-' :: c0 :: (rest ++
        ['.', digitChar (n / 10 % 10), digitChar (n % 10)])) = false :=
      lookaheadGroups_not_digit '-' _ (by decide)
    have hstep1 : insertCommasGo none ('-' :: c0 :: (rest ++
        ['.', digitChar (n / 10 % 10), digitChar (n % 10)])) =
        (if (!isWordChar '-') && lookaheadGroups ('-' :: c0 :: (rest ++
            ['.', digitChar (n / 10 % 10), digitChar (n % 10)])) then
          ',' :: '-' :: insertCommasGo (some '-') (c0 :: (rest ++
            ['.', digitChar (n / 10 % 10), digitChar (n % 10)]))
        else '-' :: insertCommasGo (some '-') (c0 :: (rest ++
          ['.', digitChar (n / 10 % 10), digitChar (n % 10)]))) := rfl
    have hstep2 : insertCommasGo (some '-') (c0 :: (rest ++
        ['.', digitChar (n / 10 % 10), digitChar (n % 10)])) =
        (if (isWordChar '-' == isWordChar c0) && lookaheadGroups (c0 :: (rest ++
            ['.', digitChar (n / 10 % 10), digitChar (n % 10)])) then
          ',' :: c0 :: insertCommasGo (some c0) (rest ++
            ['.', digitChar (n / 10 % 10), digitChar (n % 10)])
        else c0 :: insertCommasGo (some c0) (rest ++
          ['.', digitChar (n / 10 % 10), digitChar (n % 10)])) := rfl
    have hwm : isWordChar '-' = false := by decide
    have hdig := insertCommasGo_digits rest c0 _ _ hrest hc0 h1 h2
    rw [hstep1, hla, Bool.and_false, if_neg (by simp), hstep2, hwm, hw0,
      if_neg (by simp), hdig]
    simp [specGroup]
  · rw [if_neg hneg]
    simp only [List.cons_append, List.nil_append, List.append_assoc]
    have hstep : insertCommasGo none (c0 :: (rest ++
        ['.', digitChar (n / 10 % 10), digitChar (n % 10)])) =
        (if (!isWordChar c0) && lookaheadGroups (c0 :: (rest ++
            ['.', digitChar (n / 10 % 10), digitChar (n % 10)])) then
          ',' :: c0 :: insertCommasGo (some c0) (rest ++
            ['.', digitChar (n / 10 % 10), digitChar (n % 10)])
        else c0 :: insertCommasGo (some c0) (rest ++
          ['.', digitChar (n / 10 % 10), digitChar (n % 10)])) := rfl
    have hdig := insertCommasGo_digits rest c0 _ _ hrest hc0 h1 h2
    rw [hstep, hw0, Bool.not_true, Bool.false_and, if_neg (by simp), hdig]
    simp [specGroup]

/-! # Theorems -/

/-- C1: the claim fails on the code.  Re-synchronizing after the
preference changes from EUR to GBP does not produce the GBP conversion of
the original base amount: the rewrite substitutes into the previously
converted display string (the `data-original-html` baseline is never set
by the source, which only ever writes `data-original-text`), where the
price patterns no longer match, so the content stays at the stale EUR
rendering `"€85.00"` instead of the `"£73.00"` the claim requires. -/
theorem c1_preference_change_not_rederived :
    ((updatePriceElement (prefState "EUR") ⟨[("data-price", "100")], "$100"⟩).bind
        (fun e1 => updatePriceElement (prefState "GBP") e1)).map Element.innerHTML =
      some "€85.00" ∧
    (convertAmount (prefState "GBP") 100).map Converted.formatted = some "£73.00" ∧
    ("€85.00" : String) ≠ "£73.00" :=
  ⟨by decide, by decide, by decide⟩

/-- C2: the claim fails on the code.  With an unchanged state (empty
storage, default USD preference) and the unchanged attribute baseline, two
consecutive synchronizations of the same element produce different
content: the first pass rewrites `"4321 dollars"` to
`"$4,321.00 US Dollar"`, and the second pass, substituting into that
already-converted string (the baseline attribute is never set), rewrites
its `"$4"` prefix again, yielding `"$4,321.00,321.00 US Dollar"`. -/
theorem c2_synchronize_not_idempotent :
    (updatePriceElement emptyBrowser ⟨[("data-price", "4321")], "4321 dollars"⟩).map
        Element.innerHTML = some "$4,321.00 US Dollar" ∧
    ((updatePriceElement emptyBrowser ⟨[("data-price", "4321")], "4321 dollars"⟩).bind
        (fun e1 => updatePriceElement emptyBrowser e1)).map Element.innerHTML =
      some "$4,321.00,321.00 US Dollar" ∧
    ("$4,321.00 US Dollar" : String) ≠ "$4,321.00,321.00 US Dollar" :=
  ⟨by decide, by decide, by decide⟩

/-- C3: the claim fails on the code.  When the stored preference resolves
to a code absent from the registry, `convertAmount` reads
`currencyData.rate` on `undefined` and throws (modelled as `none`); the
fallback to the default currency exists only inside `formatCurrency`,
which is never reached. -/
theorem c3_unknown_code_conversion_throws :
    convertAmount (prefState "DOES_NOT_EXIST") 100 = none :=
  by decide

/-- C4 counterexample: `convertAmount` has no target-code parameter; it
reads the preference from the external store, so the same base amount
yields different results under different external preference states
(default USD versus stored EUR). -/
theorem c4_counterexample :
    convertAmount emptyBrowser 100 ≠ convertAmount (prefState "EUR") 100 :=
  by decide

/-- C4 amended: the conversion is a pure function of the base amount and
the externally resolved preference — two calls agree whenever the resolved
preference codes agree, but the code is read internally via
`getUserCurrency`, not supplied by the caller. -/
theorem c4_conversion_determined_by_resolved_preference
    (b b' : BrowserState) (x : ℚ)
    (h : getUserCurrency b = getUserCurrency b') :
    convertAmount b x = convertAmount b' x := by
  unfold convertAmount
  rw [h]

/-- C4 witness: two states differing in an irrelevant component resolve to
the same preference and convert identically. -/
theorem c4_witness :
    getUserCurrency emptyBrowser = getUserCurrency ⟨⟨[]⟩, ⟨[]⟩, "other", []⟩ ∧
    convertAmount emptyBrowser 7 = convertAmount ⟨⟨[]⟩, ⟨[]⟩, "other", []⟩ 7 :=
  ⟨by decide,
    c4_conversion_determined_by_resolved_preference emptyBrowser ⟨⟨[]⟩, ⟨[]⟩, "other", []⟩ 7
      (by decide)⟩

/-- C5: formatting rounds to two decimals, inserts the grouping separator
every three digits left of the decimal point — never crossing the point and
never next to a leading minus sign (the regex behaviour equals the spec's
grouping, `groupedFixedSpec`) — and places the symbol before or after the
number according to the registry position; in particular
`format(1234.5, USD)` is `"$1,234.50"`. -/
theorem c5_formatting (x : ℚ) (code : String) (c : Currency)
    (h : lookupCurrency code = some c) :
    (formatCurrency x code =
      match c.position with
      | Pos.before => c.symbol ++ (⟨insertCommas (toFixed2 x)⟩ : String)
      | Pos.after => (⟨insertCommas (toFixed2 x)⟩ : String) ++ c.symbol) ∧
    insertCommas (toFixed2 x) = groupedFixedSpec x ∧
    formatCurrency (1234.5 : ℚ) "USD" = "$1,234.50" := by
  refine ⟨?_, insertCommas_toFixed_eq_spec x, ?_⟩
  · unfold formatCurrency
    rw [h]
  · have hlit : (1234.5 : ℚ) = mkRat 12345 10 := by
      rw [Rat.mkRat_eq_div]
      norm_num
    rw [hlit]
    decide

/-- C5 witness: the placement equation at EUR, the grouping equation at 85,
and the concrete example. -/
theorem c5_witness :
    lookupCurrency "EUR" = some ⟨"€", "Euro", mkRat 85 100, Pos.before⟩ ∧
    formatCurrency (85 : ℚ) "EUR" = "€" ++ (⟨insertCommas (toFixed2 85)⟩ : String) ∧
    insertCommas (toFixed2 85) = groupedFixedSpec 85 ∧
    formatCurrency (1234.5 : ℚ) "USD" = "$1,234.50" := by
  have h := c5_formatting 85 "EUR" ⟨"€", "Euro", mkRat 85 100, Pos.before⟩ (by decide)
  exact ⟨by decide, h.1, h.2.1, h.2.2⟩

/-- C6 counterexample: with a persisted EUR, a session GBP and a logged-in
user, the spec's layering (session over persisted) resolves to GBP, but
the code resolves to EUR — localStorage is consulted first. -/
theorem c6_counterexample :
    specLayeredResolve c6State = "GBP" ∧ getUserCurrency c6State = "EUR" ∧
    ("GBP" : String) ≠ "EUR" :=
  ⟨by decide, by decide, by decide⟩

/-- C6 amended: resolution is layered the other way around — the persisted
(localStorage) value wins whenever it is set and non-empty; the
session-scoped value is consulted only when the persisted value is falsy
and the user is logged in; otherwise the registry default applies (in
particular, for a logged-out user the session scope is never consulted). -/
theorem c6_layered_resolution :
    (∀ (b : BrowserState) (v : String), b.localStorage.getItem storageKey = some v →
        v ≠ "" → getUserCurrency b = v) ∧
    (∀ b : BrowserState, truthy (b.localStorage.getItem storageKey) = false →
        checkIfUserIsLoggedIn b = true →
        getUserCurrency b = orDefault (b.sessionStorage.getItem storageKey) defaultCurrency) ∧
    (∀ b : BrowserState, truthy (b.localStorage.getItem storageKey) = false →
        checkIfUserIsLoggedIn b = false → getUserCurrency b = defaultCurrency) := by
  refine ⟨?_, ?_, ?_⟩
  · intro b v hv hne
    have hb : (v == "") = false := by simp [hne]
    simp [getUserCurrency, hv, truthy, orDefault, hb]
  · intro b hl hlog
    simp [getUserCurrency, hl, hlog]
  · intro b hl hlog
    simp [getUserCurrency, hl, hlog, orDefault_falsy _ _ hl]

/-- C6 witness: at the concrete logged-in state with persisted EUR, the
persisted value wins. -/
theorem c6_witness :
    c6State.localStorage.getItem storageKey = some "EUR" ∧
    getUserCurrency c6State = "EUR" :=
  ⟨by decide, c6_layered_resolution.1 c6State "EUR" (by decide) (by decide)⟩

/-- C7 counterexample: an added element recognized as price-bearing by the
text heuristics alone (class `price`, text `"Price: $42.00 today"`, no
`data-price` attribute) is never synchronized by the observer callback —
the batch produces no synchronization targets at all. -/
theorem c7_counterexample :
    qualifiesAsPriceBearing c7Node = true ∧ observerSyncTargets [c7Node] = [] := by
  constructor
  · have ht : textContent c7Node = "Price: $42.00 today".data := by
      simp [textContent, textContentList, c7Node]
    unfold qualifiesAsPriceBearing
    rw [ht]
    decide
  · simp [observerSyncTargets, observerTargetsOf, c7Node, hasDataPrice,
      descendantsWithPrice, descendantsWithPriceList]

/-- C7 amended: the observer synchronizes exactly attribute-tagged
elements — every added element carrying `data-price` is synchronized, and
every synchronized node carries `data-price`; added nodes qualifying only
through the text heuristics are never synchronized (and descendants are
scanned only when the added node itself lacks the attribute). -/
theorem c7_observer_targets :
    (∀ (added : List DomNode) (n : DomNode), n ∈ added → hasDataPrice n = true →
        n ∈ observerSyncTargets added) ∧
    (∀ (added : List DomNode) (n : DomNode), n ∈ observerSyncTargets added →
        hasDataPrice n = true) := by
  constructor
  · intro added n hmem hdp
    unfold observerSyncTargets
    rw [List.mem_flatMap]
    refine ⟨n, hmem, ?_⟩
    cases n with
    | text s => simp [hasDataPrice] at hdp
    | element t attrs cs =>
      simp only [observerTargetsOf, hdp, if_true]
      simp
  · intro added n h
    unfold observerSyncTargets at h
    rw [List.mem_flatMap] at h
    obtain ⟨a, _, hin⟩ := h
    cases a with
    | text s => simp [observerTargetsOf] at hin
    | element t attrs cs =>
      simp only [observerTargetsOf] at hin
      by_cases hdp : hasDataPrice (DomNode.element t attrs cs) = true
      · rw [if_pos hdp] at hin
        simp only [List.mem_singleton] at hin
        subst hin
        exact hdp
      · rw [if_neg hdp] at hin
        exact mem_descendantsWithPriceList cs n hin

/-- C7 witness: a concrete added element with the attribute is among the
synchronization targets. -/
theorem c7_witness :
    c7PricedNode ∈ [c7PricedNode] ∧ hasDataPrice c7PricedNode = true ∧
    c7PricedNode ∈ observerSyncTargets [c7PricedNode] :=
  ⟨List.mem_singleton.mpr rfl, by decide,
    c7_observer_targets.1 [c7PricedNode] c7PricedNode (List.mem_singleton.mpr rfl)
      (by decide)⟩

/-- C8 counterexample: `parseFloat("-5")` is `-5`, not `NaN`, so an
element whose attribute holds a negative numeral is not skipped — it is
converted and rewritten (here to `"$-5.00"`) and tagged with the applied
code. -/
theorem c8_counterexample :
    parseFloatQ "-5" = some (-5) ∧
    (updatePriceElement emptyBrowser ⟨[("data-price", "-5")], "$5"⟩).map
        Element.innerHTML = some "$-5.00" ∧
    (updatePriceElement emptyBrowser ⟨[("data-price", "-5")], "$5"⟩).map
        (fun e => e.getAttribute "data-currency") = some (some "USD") :=
  ⟨by decide, by decide, by decide⟩

/-- C8 amended: synchronization skips the element exactly when
`parseFloat` of its `data-price` attribute is `NaN` (in particular when
the attribute is absent); any string with a parseable numeric prefix —
including negative numerals — is accepted and processed. -/
theorem c8_skip_on_nan (b : BrowserState) (e : Element)
    (h : (e.getAttribute "data-price").bind parseFloatQ = none) :
    updatePriceElement b e = some e := by
  unfold updatePriceElement
  rw [h]

/-- C8 witness: an element with a non-numeric attribute value is returned
unchanged. -/
theorem c8_witness :
    ((⟨[("data-price", "abc")], "x"⟩ : Element).getAttribute "data-price").bind
        parseFloatQ = none ∧
    updatePriceElement emptyBrowser ⟨[("data-price", "abc")], "x"⟩ =
      some ⟨[("data-price", "abc")], "x"⟩ :=
  ⟨by decide, c8_skip_on_nan emptyBrowser ⟨[("data-price", "abc")], "x"⟩ (by decide)⟩

/-- C9 counterexample: in `"1 USD $2"` the first left-to-right match of
either pattern is the word-pattern match `"1 USD"`, but the code returns
`"2"` — it runs the symbol regex over the whole text before ever trying
the word regex. -/
theorem c9_counterexample :
    extractPriceFromText "1 USD $2" = some "2" ∧
    specFirstPriceMatch "1 USD $2" = some "1" ∧
    (some "2" : Option String) ≠ some "1" :=
  ⟨by decide, by decide, by decide⟩

/-- C9 amended: extraction is total and finds a price exactly when the
spec's combined left-to-right scan does, but it prioritizes the symbol
pattern over document order: the whole text is searched for a
symbol-prefixed numeral first, and the numeral-plus-currency-word pattern
is only tried when no symbol match exists anywhere.  The concrete examples
hold: `"Price: $42.00 today"` yields the numeral `"42.00"` (value 42) and
`"no price here"` yields `NOT_FOUND`. -/
theorem c9_extraction :
    (∀ s : String, extractPriceFromText s = none ↔ specFirstPriceMatch s = none) ∧
    extractPriceFromText "Price: $42.00 today" = some "42.00" ∧
    parseFloatQ "42.00" = some 42 ∧
    extractPriceFromText "no price here" = none := by
  refine ⟨?_, by decide, by decide, by decide⟩
  intro s
  unfold extractPriceFromText specFirstPriceMatch
  rw [Option.map_eq_none', firstScan_combine_none dollarNumAt wordNumAt s.data]
  cases h1 : firstScan dollarNumAt s.data <;>
    cases h2 : firstScan wordNumAt s.data <;> simp [h1, h2]

/-- C10: setting an unregistered code returns `false` and leaves the whole
browser state untouched (no persisted write, no session write, no event);
setting a registered code returns `true`, writes the persisted preference
and dispatches the `currencyChanged` notification. -/
theorem c10_set_user_currency :
    (∀ (b : BrowserState) (code : String), lookupCurrency code = none →
        setUserCurrency b code = (false, b)) ∧
    (∀ (b : BrowserState) (code : String) (c : Currency), lookupCurrency code = some c →
        (setUserCurrency b code).1 = true ∧
        (setUserCurrency b code).2.localStorage.getItem storageKey = some code ∧
        (setUserCurrency b code).2.events = b.events ++ [("currencyChanged", code)]) := by
  constructor
  · intro b code h
    unfold setUserCurrency
    rw [h]
    rfl
  · intro b code c h
    have hni : (lookupCurrency code).isNone = false := by rw [h]; rfl
    unfold setUserCurrency
    rw [hni]
    simp only [Bool.false_eq_true, if_false]
    cases hlog :
        checkIfUserIsLoggedIn { b with localStorage := b.localStorage.setItem storageKey code } <;>
      simp [hlog, Storage.getItem, Storage.setItem]

/-- C10 witness: the invalid-code branch at a concrete state. -/
theorem c10_witness :
    lookupCurrency "XXX" = none ∧
    setUserCurrency emptyBrowser "XXX" = (false, emptyBrowser) :=
  ⟨by decide, c10_set_user_currency.1 emptyBrowser "XXX" (by decide)⟩

end CurrencyConfig
